import Mathlib

/-!
Verification of the coverage-correlation engine of go-patch-cover.

The definitions below are a shallow embedding of `cover.go` (package
`patchcover`) together with the fragments of its two input models that the
engine reads: `gitdiff.File`/`TextFragment`/`Line` from
github.com/bluekeyes/go-gitdiff and `cover.Profile`/`ProfileBlock` from
golang.org/x/tools/cover.  Go `int`/`int64` values are modelled as
unbounded `Int` (no claim under scrutiny concerns machine overflow) and
Go `float64` percentage fields as exact rationals `Rat`; Go string
primitives used by the engine (`strings.HasSuffix`, `strings.HasPrefix`,
`strings.Contains`, `strings.TrimSpace`, and
`strings.ReplaceAll _ "\n" ""`) are embedded as structurally recursive
functions over `String.data` so that every definition is executable.
Go map values (`map[string][]Line`) are embedded as association lists in
key-insertion order; since Go leaves map iteration order unspecified, the
single loop that iterates over such a map (`printUncoveredLines`) takes
the iteration order as an explicit parameter, quantified over in the
theorems.
-/

namespace GoStrings

/-- Embedding of `strings.HasPrefix` restricted to the pattern being a
character-list prefix of the subject: `charsStart p l` holds when `l`
starts with `p`. -/
def charsStart : List Char → List Char → Bool
  | [], _ => true
  | _ :: _, [] => false
  | p :: ps, c :: cs => p = c && charsStart ps cs

/-- Embedding of `strings.HasSuffix` on character lists: `charsEnd p l`
holds when `l` ends with `p`. -/
def charsEnd (p l : List Char) : Bool :=
  charsStart p.reverse l.reverse

/-- Embedding of `strings.Contains` on character lists: `charsContain sub l`
holds when `sub` occurs contiguously inside `l`. -/
def charsContain (sub : List Char) : List Char → Bool
  | [] => charsStart sub []
  | c :: cs => charsStart sub (c :: cs) || charsContain sub cs

/-- Go `strings.HasPrefix s pat`. -/
def goHasPre (s pat : String) : Bool := charsStart pat.data s.data

/-- Go `strings.HasSuffix s pat`. -/
def goHasSuf (s pat : String) : Bool := charsEnd pat.data s.data

/-- Go `strings.Contains s sub`. -/
def goContains (s sub : String) : Bool := charsContain sub.data s.data

/-- Go `strings.TrimSpace`: drop leading and trailing whitespace.  (Go trims
the Unicode white-space class; the engine only ever meets ASCII source text,
so `Char.isWhitespace` is used on both the code side and the spec side.) -/
def goTrimSpace (s : String) : String :=
  ⟨((s.data.dropWhile Char.isWhitespace).reverse.dropWhile Char.isWhitespace).reverse⟩

/-- Go `strings.ReplaceAll line "\n" ""` from `computeCoverage`: because the
pattern is the single character `'\n'`, replacing each occurrence with the
empty string is exactly filtering that character out. -/
def stripNewlines (s : String) : String :=
  ⟨s.data.filter (fun c => c ≠ '\x0a')⟩

end GoStrings

namespace Gitdiff

/-- `gitdiff.LineOp`: the operation of one line of a text fragment. -/
inductive LineOp where
  | opContext
  | opDelete
  | opAdd
deriving DecidableEq

/-- `gitdiff.Line`: one line of a hunk; `Line` is the raw text (the parser
keeps the trailing newline, which `computeCoverage` strips). -/
structure DiffLine where
  Op : LineOp
  Line : String
deriving DecidableEq

/-- `gitdiff.TextFragment` (the fields read by the engine): a hunk with its
1-based starting line `NewPosition` in the post-patch file and all of its
lines, context, added and deleted alike, in file order. -/
structure TextFragment where
  NewPosition : Int
  Lines : List DiffLine
deriving DecidableEq

/-- `gitdiff.File` (the fields read by the engine). -/
structure File where
  NewName : String
  TextFragments : List TextFragment
deriving DecidableEq

end Gitdiff

namespace GoCover

/-- `cover.ProfileBlock` from golang.org/x/tools/cover.  The profile parser
only accepts digit runs for the numeric fields, so all values it produces
are non-negative; the type stays `Int` to mirror the Go `int` fields. -/
structure ProfileBlock where
  StartLine : Int
  StartCol : Int
  EndLine : Int
  EndCol : Int
  NumStmt : Int
  Count : Int
deriving DecidableEq

/-- `cover.Profile`. -/
structure Profile where
  FileName : String
  Blocks : List ProfileBlock
deriving DecidableEq

end GoCover

namespace PatchCover

open GoStrings Gitdiff GoCover

/-- `patchcover.Line` (cover.go): a diff-added line bound to the block that
contains it. -/
structure Line where
  LineNum : Int
  NumStmt : Int
  CoverCount : Int
  LineString : String
deriving DecidableEq

/-- `patchcover.CoverageData` (cover.go).  `var data CoverageData` starts
from Go zero values, mirrored by the field defaults. -/
structure CoverageData where
  NumStmt : Int := 0
  CoverCount : Int := 0
  Coverage : Rat := 0
  PatchNumStmt : Int := 0
  PatchCoverCount : Int := 0
  PatchCoverage : Rat := 0
  HasPrevCoverage : Bool := false
  PrevNumStmt : Int := 0
  PrevCoverCount : Int := 0
  PrevCoverage : Rat := 0
  Uncovered_lines : String := ""
deriving DecidableEq

/-- `isInvalidLine` (cover.go line 257): comments, blank lines and lines
carrying a struct tag are excluded from uncovered-line accounting. -/
def isInvalidLine (line : String) : Bool :=
  let l := goTrimSpace line
  goHasPre l "//" || goHasPre l "/*" || goHasSuf l "*/" || l = "" || goContains l "`json:"

/-- `isLineCovered` (cover.go line 262): a candidate line counts as covered
when some covered entry agrees on line number, text and execution count. -/
def isLineCovered (line : Line) (coveredLines : List Line) : Bool :=
  coveredLines.any fun coveredLine =>
    coveredLine.LineNum = line.LineNum && coveredLine.LineString = line.LineString &&
      coveredLine.CoverCount = line.CoverCount

/-- A Go `map[string][]Line` as an association list in key-insertion order:
per-key slices are in append order, exactly as the Go map stores them. -/
def LineMap := List (String × List Line)

/-- `m[k] = append(m[k], v)` on the embedded map: extend the slice of an
existing key, or add the key at the end. -/
def appendLine (m : List (String × List Line)) (k : String) (v : Line) :
    List (String × List Line) :=
  match m with
  | [] => [(k, [v])]
  | (k', vs) :: rest =>
    if k' = k then (k', vs ++ [v]) :: rest else (k', vs) :: appendLine rest k v

/-- Reading `m[k]` from the embedded map (zero value `[]` when absent). -/
def lookupLines (m : List (String × List Line)) (k : String) : List Line :=
  match m with
  | [] => []
  | (k', vs) :: rest => if k' = k then vs else lookupLines rest k

/-- The `_, ok := m[k]` test on the embedded map. -/
def containsKey (m : List (String × List Line)) (k : String) : Bool :=
  match m with
  | [] => false
  | (k', _) :: rest => k' = k || containsKey rest k

/-- The key list of the embedded map; Go iterates these keys in an
unspecified order. -/
def mapKeys (m : List (String × List Line)) : List String :=
  m.map Prod.fst

/-- The mutable state threaded through the patch-coverage loop of
`computeCoverage` (lines 92-144): the report being built plus the two
line maps. -/
structure MatchState where
  data : CoverageData
  coveredLines : List (String × List Line)
  partiallyCoveredLines : List (String × List Line)

/-- The scan of one hunk's lines for a block (cover.go lines 109-140):
walk all lines with their zero-based index `i`, skip non-Add lines, and
return the first Add line whose number `NewPosition + i` falls inside
`[StartLine, EndLine]`, paired with its newline-stripped text. -/
def findAddLine (newPos : Int) (b : ProfileBlock) (i : Nat) :
    List DiffLine → Option (Int × String)
  | [] => none
  | l :: rest =>
    if l.Op = LineOp.opAdd ∧ b.StartLine ≤ newPos + i ∧ newPos + i ≤ b.EndLine then
      some (newPos + i, stripNewlines l.Line)
    else
      findAddLine newPos b (i + 1) rest

/-- The scan of all hunks of a diff file for a block (cover.go lines
108-141): first hunk with a matching Add line wins. -/
def findAddInFragments (b : ProfileBlock) : List TextFragment → Option (Int × String)
  | [] => none
  | t :: rest =>
    match findAddLine t.NewPosition b 0 t.Lines with
    | some r => some r
    | none => findAddInFragments b rest

/-- The body of `blockloop` for one block (cover.go lines 106-142): when some
Add line of the diff file hits the block, credit the block once to the patch
totals and record the line in the covered or candidate-uncovered map. -/
def processBlock (fileName : String) (frags : List TextFragment) (st : MatchState)
    (b : ProfileBlock) : MatchState :=
  match findAddInFragments b frags with
  | none => st
  | some (lineNum, lineString) =>
    if b.Count > 0 then
      { st with
        data := { st.data with
          PatchNumStmt := st.data.PatchNumStmt + b.NumStmt
          PatchCoverCount := st.data.PatchCoverCount + b.NumStmt }
        coveredLines := appendLine st.coveredLines fileName
          ⟨lineNum, b.NumStmt, b.Count, lineString⟩ }
    else
      { st with
        data := { st.data with PatchNumStmt := st.data.PatchNumStmt + b.NumStmt }
        partiallyCoveredLines := appendLine st.partiallyCoveredLines fileName
          ⟨lineNum, b.NumStmt, b.Count, lineString⟩ }

/-- One (profile, diff file) pair (cover.go lines 98-143): blocks are scanned
only when the profile filename suffix-matches the diff file's new name. -/
def processFilePair (p : Profile) (f : File) (st : MatchState) : MatchState :=
  if goHasSuf p.FileName f.NewName then
    p.Blocks.foldl (processBlock p.FileName f.TextFragments) st
  else
    st

/-- The inner diff-file loop for one profile (cover.go line 98). -/
def processProfile (diffFiles : List File) (st : MatchState) (p : Profile) : MatchState :=
  diffFiles.foldl (fun st f => processFilePair p f st) st

/-- The whole patch-coverage loop (cover.go lines 97-144). -/
def patchLoop (coverProfiles : List Profile) (diffFiles : List File)
    (st : MatchState) : MatchState :=
  coverProfiles.foldl (processProfile diffFiles) st

/-- Initial state: `var data CoverageData` plus two empty maps. -/
def initialMatchState : MatchState :=
  ⟨{}, [], []⟩

/-- The state after the patch-coverage loop on given inputs (cover.go
lines 92-144). -/
def step2 (diffFiles : List File) (coverProfiles : List Profile) : MatchState :=
  patchLoop coverProfiles diffFiles initialMatchState

/-- The body of the total-coverage loop for one block (cover.go lines
149-152). -/
def totalBlockStep (d : CoverageData) (b : ProfileBlock) : CoverageData :=
  let d := { d with NumStmt := d.NumStmt + b.NumStmt }
  if b.Count > 0 then { d with CoverCount := d.CoverCount + b.NumStmt } else d

/-- The total-coverage loop (cover.go lines 147-154). -/
def totalLoop (coverProfiles : List Profile) (d : CoverageData) : CoverageData :=
  coverProfiles.foldl (fun d p => p.Blocks.foldl totalBlockStep d) d

/-- The body of the previous-total-coverage loop for one block (cover.go
lines 159-162). -/
def prevBlockStep (d : CoverageData) (b : ProfileBlock) : CoverageData :=
  let d := { d with PrevNumStmt := d.PrevNumStmt + b.NumStmt }
  if b.Count > 0 then { d with PrevCoverCount := d.PrevCoverCount + b.NumStmt } else d

/-- The previous-total-coverage loop (cover.go lines 157-164). -/
def prevLoop (prevCoverProfiles : List Profile) (d : CoverageData) : CoverageData :=
  prevCoverProfiles.foldl (fun d p => p.Blocks.foldl prevBlockStep d) d

/-- The body of the per-line loop of `printUncoveredLines` (cover.go lines
211-225), acting on the report plus the `uncoveredLines` slice kept for the
current file. -/
def processLine (ok : Bool) (covList : List Line) (acc : CoverageData × List Line)
    (line : Line) : CoverageData × List Line :=
  let uncovered := !ok || !isLineCovered line covList
  if !isInvalidLine line.LineString then
    if uncovered then (acc.1, acc.2 ++ [line]) else acc
  else
    let d := { acc.1 with PatchNumStmt := acc.1.PatchNumStmt - line.NumStmt }
    let d := if !uncovered then { d with PatchCoverCount := d.PatchCoverCount - line.NumStmt }
      else d
    (d, acc.2)

/-- The text written for one uncovered line (cover.go lines 233-238). -/
def renderLine (line : Line) : String :=
  "LineNum: " ++ toString line.LineNum ++ "\n" ++ "Lines:\n <code>" ++ line.LineString ++
    "</code>\n"

/-- The section written for one file when it still has uncovered lines
(cover.go lines 228-243). -/
def renderFile (fileName : String) (uncoveredLines : List Line) : String :=
  if uncoveredLines.length > 0 then
    "<pre>\n" ++ "Uncovered lines in " ++ fileName ++ ":\n" ++
      String.join (uncoveredLines.map renderLine) ++ "\n-----------------------\n" ++ "</pre>\n"
  else
    ""

/-- The body of the per-file loop of `printUncoveredLines` (cover.go lines
204-244) for one map key: filter that file's candidate lines, apply the
invalid-line corrections, and append the file's rendered section to the
content written so far. -/
def printFileStep (partiallyCoveredLines coveredLines : List (String × List Line))
    (acc : CoverageData × String) (fileName : String) : CoverageData × String :=
  let lines := lookupLines partiallyCoveredLines fileName
  let ok := containsKey coveredLines fileName
  let covList := lookupLines coveredLines fileName
  let processed := lines.foldl (processLine ok covList) (acc.1, [])
  (processed.1, acc.2 ++ renderFile fileName processed.2)

/-- `printUncoveredLines` (cover.go lines 195-254).  `order` is the key
iteration order Go chooses for the `partiallyCoveredLines` map; the write
of the side file is modelled by its content, which the function reads back
into `Uncovered_lines`. -/
def printUncoveredLines (order : List String)
    (partiallyCoveredLines coveredLines : List (String × List Line))
    (data : CoverageData) : CoverageData :=
  let folded := order.foldl (printFileStep partiallyCoveredLines coveredLines) (data, "")
  { folded.1 with Uncovered_lines := folded.2 }

/-- The percentage steps of `computeCoverage` (cover.go lines 169-182), in
source order: the three guarded divisions, then the `PatchNumStmt == 0`
special case. -/
def percentSteps (d : CoverageData) : CoverageData :=
  let d := if d.NumStmt ≠ 0 then
    { d with Coverage := (d.CoverCount : Rat) / (d.NumStmt : Rat) * 100 } else d
  let d := if d.PatchNumStmt ≠ 0 then
    { d with PatchCoverage := (d.PatchCoverCount : Rat) / (d.PatchNumStmt : Rat) * 100 } else d
  let d := if d.PrevNumStmt ≠ 0 then
    { d with PrevCoverage := (d.PrevCoverCount : Rat) / (d.PrevNumStmt : Rat) * 100 } else d
  if d.PatchNumStmt = 0 then { d with PatchCoverage := 100 } else d

/-- `computeCoverage` (cover.go lines 91-185).  `order` is the iteration
order of the `partiallyCoveredLines` map inside `printUncoveredLines`; the
Go function always ends in `return data, nil`, modelled by the `none`
error component. -/
def computeCoverage (diffFiles : List File) (coverProfiles : List Profile)
    (prevCoverProfiles : List Profile) (order : List String) :
    CoverageData × Option String :=
  let st := step2 diffFiles coverProfiles
  let data := totalLoop coverProfiles st.data
  let data := prevLoop prevCoverProfiles data
  let data := printUncoveredLines order st.partiallyCoveredLines st.coveredLines data
  (percentSteps data, none)

/-- The iteration orders Go may choose for the candidate-uncovered map of a
given input: any enumeration of its keys, each exactly once. -/
def admissibleOrder (diffFiles : List File) (coverProfiles : List Profile)
    (order : List String) : Prop :=
  order.Perm (mapKeys (step2 diffFiles coverProfiles).partiallyCoveredLines)

end PatchCover

namespace GoStrings

theorem charsStart_iff (p l : List Char) :
    charsStart p l = true ↔ ∃ t, l = p ++ t := by
  induction p generalizing l with
  | nil => simp [charsStart]
  | cons a as ih =>
    cases l with
    | nil => simp [charsStart]
    | cons c cs =>
      simp only [charsStart, Bool.and_eq_true, decide_eq_true_eq, ih, List.cons_append,
        List.cons.injEq]
      constructor
      · rintro ⟨rfl, t, rfl⟩
        exact ⟨t, rfl, rfl⟩
      · rintro ⟨t, rfl, rfl⟩
        exact ⟨rfl, t, rfl⟩

theorem charsEnd_iff (p l : List Char) :
    charsEnd p l = true ↔ ∃ t, l = t ++ p := by
  unfold charsEnd
  rw [charsStart_iff]
  constructor
  · rintro ⟨t, ht⟩
    refine ⟨t.reverse, ?_⟩
    have := congrArg List.reverse ht
    simpa using this
  · rintro ⟨t, rfl⟩
    exact ⟨t.reverse, by simp⟩

theorem charsContain_iff (sub l : List Char) :
    charsContain sub l = true ↔ ∃ a b, l = a ++ sub ++ b := by
  induction l with
  | nil =>
    cases sub with
    | nil => simp [charsContain, charsStart]
    | cons s ss => simp [charsContain, charsStart]
  | cons c cs ih =>
    simp only [charsContain, Bool.or_eq_true, charsStart_iff, ih]
    constructor
    · rintro (⟨t, ht⟩ | ⟨a, b, hab⟩)
      · exact ⟨[], t, by simpa using ht⟩
      · exact ⟨c :: a, b, by simp [hab]⟩
    · rintro ⟨a, b, hab⟩
      cases a with
      | nil =>
        exact Or.inl ⟨b, by simpa using hab⟩
      | cons a0 as =>
        simp only [List.cons_append, List.cons.injEq] at hab
        exact Or.inr ⟨as, b, hab.2⟩

theorem goHasPre_iff (s pat : String) :
    goHasPre s pat = true ↔ ∃ r : String, s = pat ++ r := by
  unfold goHasPre
  rw [charsStart_iff]
  constructor
  · rintro ⟨t, ht⟩
    obtain ⟨sd⟩ := s
    refine ⟨⟨t⟩, ?_⟩
    simp only [String.data] at ht
    rw [ht]
    rfl
  · rintro ⟨r, rfl⟩
    exact ⟨r.data, rfl⟩

theorem goHasSuf_iff (s pat : String) :
    goHasSuf s pat = true ↔ ∃ r : String, s = r ++ pat := by
  unfold goHasSuf
  rw [charsEnd_iff]
  constructor
  · rintro ⟨t, ht⟩
    obtain ⟨sd⟩ := s
    refine ⟨⟨t⟩, ?_⟩
    simp only [String.data] at ht
    rw [ht]
    rfl
  · rintro ⟨r, rfl⟩
    exact ⟨r.data, rfl⟩

theorem goContains_iff (s sub : String) :
    goContains s sub = true ↔ ∃ a b : String, s = a ++ sub ++ b := by
  unfold goContains
  rw [charsContain_iff]
  constructor
  · rintro ⟨a, b, hab⟩
    obtain ⟨sd⟩ := s
    refine ⟨⟨a⟩, ⟨b⟩, ?_⟩
    simp only [String.data] at hab
    rw [hab]
    rfl
  · rintro ⟨a, b, rfl⟩
    exact ⟨a.data, b.data, rfl⟩

end GoStrings

namespace PatchCover

open GoStrings Gitdiff GoCover

theorem foldlPreserveMem {α β : Type} (l : List α) (f : β → α → β) (P : β → Prop)
    (h : ∀ b a, a ∈ l → P b → P (f b a)) : ∀ b, P b → P (l.foldl f b) := by
  induction l with
  | nil => intro b hb; exact hb
  | cons a as ih =>
    intro b hb
    exact ih (fun b' a' ha' hb' => h b' a' (List.mem_cons_of_mem _ ha') hb') _
      (h b a (List.mem_cons_self _ _) hb)

theorem foldlProjConst {α β γ : Type} (l : List α) (f : β → α → β) (g : β → γ)
    (h : ∀ b a, a ∈ l → g (f b a) = g b) : ∀ b, g (l.foldl f b) = g b := by
  induction l with
  | nil => intro b; rfl
  | cons a as ih =>
    intro b
    rw [List.foldl_cons, ih (fun b' a' ha' => h b' a' (List.mem_cons_of_mem _ ha')),
      h b a (List.mem_cons_self _ _)]

theorem foldlProjAdd {α β : Type} (l : List α) (f : β → α → β) (g : β → Int) (amt : α → Int)
    (h : ∀ b a, a ∈ l → g (f b a) = g b + amt a) :
    ∀ b, g (l.foldl f b) = g b + (l.map amt).sum := by
  induction l with
  | nil => intro b; simp
  | cons a as ih =>
    intro b
    rw [List.foldl_cons, ih (fun b' a' ha' => h b' a' (List.mem_cons_of_mem _ ha')),
      h b a (List.mem_cons_self _ _), List.map_cons, List.sum_cons]
    omega

theorem foldlProjSub {α β : Type} (l : List α) (f : β → α → β) (g : β → Int) (amt : α → Int)
    (h : ∀ b a, a ∈ l → g (f b a) = g b - amt a) :
    ∀ b, g (l.foldl f b) = g b - (l.map amt).sum := by
  induction l with
  | nil => intro b; simp
  | cons a as ih =>
    intro b
    rw [List.foldl_cons, ih (fun b' a' ha' => h b' a' (List.mem_cons_of_mem _ ha')),
      h b a (List.mem_cons_self _ _), List.map_cons, List.sum_cons]
    omega

theorem sumMapIte {α : Type} (q : α → Bool) (v : α → Int) (l : List α) :
    (l.map fun a => if q a then v a else 0).sum = ((l.filter q).map v).sum := by
  induction l with
  | nil => rfl
  | cons a as ih =>
    by_cases h : q a
    · simp [List.filter_cons, h, ih]
    · simp [List.filter_cons, h, ih]

theorem sumMapFilterLe {α : Type} (q : α → Bool) (v : α → Int) (l : List α)
    (h : ∀ a ∈ l, 0 ≤ v a) :
    ((l.filter q).map v).sum ≤ (l.map v).sum := by
  induction l with
  | nil => simp
  | cons a as ih =>
    have ha : 0 ≤ v a := h a (List.mem_cons_self _ _)
    have ih' := ih fun a' ha' => h a' (List.mem_cons_of_mem _ ha')
    by_cases hq : q a
    · simp only [List.filter_cons, hq, if_pos, List.map_cons, List.sum_cons]
      omega
    · simp only [List.filter_cons, hq, List.map_cons, List.sum_cons]
      simp only [Bool.false_eq_true, if_false]
      omega

theorem lookupLines_nil (k : String) : lookupLines [] k = [] := rfl

theorem lookupLines_cons (ke : String) (vse : List Line) (rest : List (String × List Line))
    (k : String) :
    lookupLines ((ke, vse) :: rest) k = if ke = k then vse else lookupLines rest k := rfl

theorem appendLine_nil (k : String) (v : Line) : appendLine [] k v = [(k, [v])] := rfl

theorem appendLine_cons (ke : String) (vse : List Line) (rest : List (String × List Line))
    (k : String) (v : Line) :
    appendLine ((ke, vse) :: rest) k v =
      if ke = k then (ke, vse ++ [v]) :: rest else (ke, vse) :: appendLine rest k v := rfl

theorem containsKey_nil (k : String) : containsKey [] k = false := rfl

theorem containsKey_cons (ke : String) (vse : List Line) (rest : List (String × List Line))
    (k : String) :
    containsKey ((ke, vse) :: rest) k = (decide (ke = k) || containsKey rest k) := rfl

theorem lookupLines_appendLine (m : List (String × List Line)) (k : String) (v : Line)
    (k' : String) :
    lookupLines (appendLine m k v) k' =
      if k = k' then lookupLines m k' ++ [v] else lookupLines m k' := by
  induction m with
  | nil =>
    by_cases h : k = k' <;> simp [appendLine_nil, lookupLines_cons, lookupLines_nil, h]
  | cons e rest ih =>
    obtain ⟨ke, vse⟩ := e
    by_cases he : ke = k
    · subst he
      by_cases h : ke = k'
      · subst h
        simp [appendLine_cons, lookupLines_cons]
      · simp [appendLine_cons, lookupLines_cons, h]
    · rw [appendLine_cons, if_neg he, lookupLines_cons]
      by_cases h : ke = k'
      · subst h
        have hne : ¬ k = ke := fun hh => he hh.symm
        rw [lookupLines_cons, if_pos rfl, if_pos rfl, if_neg hne]
      · rw [lookupLines_cons, if_neg h, if_neg h, ih]

theorem containsKey_iff (m : List (String × List Line)) (k : String) :
    containsKey m k = true ↔ k ∈ mapKeys m := by
  induction m with
  | nil => simp [containsKey, mapKeys]
  | cons e rest ih =>
    obtain ⟨ke, vse⟩ := e
    simp only [containsKey_cons, Bool.or_eq_true, decide_eq_true_eq, ih, mapKeys,
      List.map_cons, List.mem_cons]
    constructor
    · rintro (rfl | h)
      · exact Or.inl rfl
      · exact Or.inr h
    · rintro (rfl | h)
      · exact Or.inl rfl
      · exact Or.inr h

theorem mapKeys_appendLine (m : List (String × List Line)) (k : String) (v : Line) :
    mapKeys (appendLine m k v) =
      if containsKey m k then mapKeys m else mapKeys m ++ [k] := by
  induction m with
  | nil => simp [appendLine, mapKeys, containsKey]
  | cons e rest ih =>
    obtain ⟨ke, vse⟩ := e
    have ih' := ih
    simp only [mapKeys] at ih'
    by_cases he : ke = k
    · simp [appendLine_cons, mapKeys, containsKey_cons, he]
    · by_cases hc : containsKey rest k
      · simp [appendLine_cons, mapKeys, containsKey_cons, he, hc, ih']
      · simp [appendLine_cons, mapKeys, containsKey_cons, he, hc, ih']

theorem nodup_mapKeys_appendLine (m : List (String × List Line)) (k : String) (v : Line)
    (h : (mapKeys m).Nodup) : (mapKeys (appendLine m k v)).Nodup := by
  rw [mapKeys_appendLine]
  by_cases hc : containsKey m k
  · simpa [hc] using h
  · have hk : k ∉ mapKeys m := fun hm => hc ((containsKey_iff m k).mpr hm)
    simp only [hc, Bool.false_eq_true, if_false]
    simp [List.nodup_append, h, hk]

theorem entries_appendLine {P : Line → Prop} (m : List (String × List Line)) (k : String)
    (v : Line) (hm : ∀ e ∈ m, ∀ l ∈ e.2, P l) (hv : P v) :
    ∀ e ∈ appendLine m k v, ∀ l ∈ e.2, P l := by
  induction m with
  | nil =>
    intro e he l hl
    simp only [appendLine, List.mem_singleton] at he
    subst he
    simp only [List.mem_singleton] at hl
    subst hl
    exact hv
  | cons e0 rest ih =>
    obtain ⟨ke, vse⟩ := e0
    by_cases he0 : ke = k
    · intro e he l hl
      simp only [appendLine, if_pos he0, List.mem_cons] at he
      rcases he with rfl | he
      · simp only [List.mem_append, List.mem_singleton] at hl
        rcases hl with hl | rfl
        · exact hm _ (List.mem_cons_self _ _) l hl
        · exact hv
      · exact hm _ (List.mem_cons_of_mem _ he) l hl
    · intro e he l hl
      simp only [appendLine, if_neg he0, List.mem_cons] at he
      rcases he with rfl | he
      · exact hm _ (List.mem_cons_self _ _) l hl
      · exact ih (fun e' he' l' hl' => hm e' (List.mem_cons_of_mem _ he') l' hl') e he l hl

theorem entries_lookup {P : Line → Prop} (m : List (String × List Line))
    (hm : ∀ e ∈ m, ∀ l ∈ e.2, P l) (k : String) : ∀ l ∈ lookupLines m k, P l := by
  induction m with
  | nil => intro l hl; simp [lookupLines] at hl
  | cons e rest ih =>
    obtain ⟨ke, vse⟩ := e
    intro l hl
    simp only [lookupLines] at hl
    by_cases he : ke = k
    · rw [if_pos he] at hl
      exact hm _ (List.mem_cons_self _ _) l hl
    · rw [if_neg he] at hl
      exact ih (fun e' he' l' hl' => hm e' (List.mem_cons_of_mem _ he') l' hl') l hl

/-- Total `NumStmt` of a slice of recorded lines. -/
def lineSum (vs : List Line) : Int :=
  (vs.map Line.NumStmt).sum

/-- Total `NumStmt` over every recorded line of the map. -/
def pcSum (m : List (String × List Line)) : Int :=
  (m.map fun e => lineSum e.2).sum

theorem pcSum_appendLine (m : List (String × List Line)) (k : String) (v : Line) :
    pcSum (appendLine m k v) = pcSum m + v.NumStmt := by
  induction m with
  | nil => simp [appendLine, pcSum, lineSum]
  | cons e rest ih =>
    obtain ⟨ke, vse⟩ := e
    by_cases he : ke = k
    · simp only [appendLine, if_pos he, pcSum, List.map_cons, List.sum_cons, lineSum,
        List.map_append, List.sum_append, List.map_cons, List.sum_cons, List.map_nil,
        List.sum_nil]
      omega
    · simp only [appendLine, if_neg he, pcSum, List.map_cons, List.sum_cons]
      have := ih
      simp only [pcSum] at this
      omega

theorem mapKeys_map_lookup (m : List (String × List Line)) (h : (mapKeys m).Nodup) :
    (mapKeys m).map (fun k => lookupLines m k) = m.map Prod.snd := by
  induction m with
  | nil => rfl
  | cons e rest ih =>
    obtain ⟨ke, vse⟩ := e
    simp only [mapKeys, List.map_cons, List.nodup_cons] at h ⊢
    have h1 : lookupLines ((ke, vse) :: rest) ke = vse := by
      rw [lookupLines_cons, if_pos rfl]
    have hcong : ∀ k ∈ rest.map Prod.fst, lookupLines ((ke, vse) :: rest) k =
        lookupLines rest k := by
      intro k hk
      have hne : ¬ ke = k := fun hh => h.1 (hh ▸ hk)
      rw [lookupLines_cons, if_neg hne]
    have ih' := ih h.2
    simp only [mapKeys] at ih'
    rw [h1, List.map_congr_left hcong, ih']

/-- The patch-statement credit one block receives from one diff file's
hunks: its `NumStmt` when some Add line hits it, else nothing. -/
def blockCredit (frags : List TextFragment) (b : ProfileBlock) : Int :=
  match findAddInFragments b frags with
  | none => 0
  | some _ => b.NumStmt

/-- The covered-statement credit one block receives from one diff file's
hunks: its `NumStmt` when some Add line hits it and the block is executed. -/
def blockCreditCov (frags : List TextFragment) (b : ProfileBlock) : Int :=
  match findAddInFragments b frags with
  | none => 0
  | some _ => if b.Count > 0 then b.NumStmt else 0

/-- Patch-statement credit of a whole (profile, diff file) pair. -/
def pairCredit (p : Profile) (f : File) : Int :=
  if goHasSuf p.FileName f.NewName then (p.Blocks.map (blockCredit f.TextFragments)).sum
  else 0

/-- Covered-statement credit of a whole (profile, diff file) pair. -/
def pairCreditCov (p : Profile) (f : File) : Int :=
  if goHasSuf p.FileName f.NewName then (p.Blocks.map (blockCreditCov f.TextFragments)).sum
  else 0

/-- Patch-statement credit of one profile against the whole diff. -/
def profileCredit (diffFiles : List File) (p : Profile) : Int :=
  (diffFiles.map (pairCredit p)).sum

/-- Covered-statement credit of one profile against the whole diff. -/
def profileCreditCov (diffFiles : List File) (p : Profile) : Int :=
  (diffFiles.map (pairCreditCov p)).sum

/-- The fields of the engine state that the patch-coverage loop never
writes. -/
def stableFields (st : MatchState) :
    Int × Int × Rat × Rat × Bool × Int × Int × Rat × String :=
  (st.data.NumStmt, st.data.CoverCount, st.data.Coverage, st.data.PatchCoverage,
    st.data.HasPrevCoverage, st.data.PrevNumStmt, st.data.PrevCoverCount,
    st.data.PrevCoverage, st.data.Uncovered_lines)

theorem stableFields_processBlock (fn : String) (frags : List TextFragment)
    (st : MatchState) (b : ProfileBlock) :
    stableFields (processBlock fn frags st b) = stableFields st := by
  unfold processBlock
  split
  · rfl
  · split <;> rfl

theorem patchNumStmt_processBlock (fn : String) (frags : List TextFragment)
    (st : MatchState) (b : ProfileBlock) :
    (processBlock fn frags st b).data.PatchNumStmt =
      st.data.PatchNumStmt + blockCredit frags b := by
  unfold processBlock blockCredit
  cases hf : findAddInFragments b frags with
  | none => simp
  | some r =>
    obtain ⟨ln, ls⟩ := r
    by_cases hb : b.Count > 0
    · simp [hb]
    · simp [hb]

theorem patchCoverCount_processBlock (fn : String) (frags : List TextFragment)
    (st : MatchState) (b : ProfileBlock) :
    (processBlock fn frags st b).data.PatchCoverCount =
      st.data.PatchCoverCount + blockCreditCov frags b := by
  unfold processBlock blockCreditCov
  cases hf : findAddInFragments b frags with
  | none => simp
  | some r =>
    obtain ⟨ln, ls⟩ := r
    by_cases hb : b.Count > 0
    · simp [hb]
    · simp [hb]

theorem stableFields_processFilePair (p : Profile) (f : File) (st : MatchState) :
    stableFields (processFilePair p f st) = stableFields st := by
  unfold processFilePair
  split
  · exact foldlProjConst p.Blocks (processBlock p.FileName f.TextFragments) stableFields
      (fun st' b _ => stableFields_processBlock p.FileName f.TextFragments st' b) st
  · rfl

theorem stableFields_patchLoop (profs : List Profile) (dfs : List File) (st : MatchState) :
    stableFields (patchLoop profs dfs st) = stableFields st := by
  unfold patchLoop
  refine foldlProjConst profs (processProfile dfs) stableFields (fun st' p _ => ?_) st
  unfold processProfile
  exact foldlProjConst dfs (fun st f => processFilePair p f st) stableFields
    (fun st'' f _ => stableFields_processFilePair p f st'') st'

theorem patchNumStmt_processFilePair (p : Profile) (f : File) (st : MatchState) :
    (processFilePair p f st).data.PatchNumStmt =
      st.data.PatchNumStmt + pairCredit p f := by
  unfold processFilePair pairCredit
  by_cases hs : goHasSuf p.FileName f.NewName = true
  · rw [if_pos hs, if_pos hs]
    exact foldlProjAdd p.Blocks (processBlock p.FileName f.TextFragments)
      (fun st => st.data.PatchNumStmt) (blockCredit f.TextFragments)
      (fun st' b _ => patchNumStmt_processBlock p.FileName f.TextFragments st' b) st
  · rw [if_neg hs, if_neg hs]
    omega

theorem patchCoverCount_processFilePair (p : Profile) (f : File) (st : MatchState) :
    (processFilePair p f st).data.PatchCoverCount =
      st.data.PatchCoverCount + pairCreditCov p f := by
  unfold processFilePair pairCreditCov
  by_cases hs : goHasSuf p.FileName f.NewName = true
  · rw [if_pos hs, if_pos hs]
    exact foldlProjAdd p.Blocks (processBlock p.FileName f.TextFragments)
      (fun st => st.data.PatchCoverCount) (blockCreditCov f.TextFragments)
      (fun st' b _ => patchCoverCount_processBlock p.FileName f.TextFragments st' b) st
  · rw [if_neg hs, if_neg hs]
    omega

theorem patchNumStmt_patchLoop (profs : List Profile) (dfs : List File) (st : MatchState) :
    (patchLoop profs dfs st).data.PatchNumStmt =
      st.data.PatchNumStmt + (profs.map (profileCredit dfs)).sum := by
  unfold patchLoop
  refine foldlProjAdd profs (processProfile dfs) (fun st => st.data.PatchNumStmt)
    (profileCredit dfs) (fun st' p _ => ?_) st
  unfold processProfile profileCredit
  exact foldlProjAdd dfs (fun st f => processFilePair p f st)
    (fun st => st.data.PatchNumStmt) (pairCredit p)
    (fun st'' f _ => patchNumStmt_processFilePair p f st'') st'

theorem patchCoverCount_patchLoop (profs : List Profile) (dfs : List File)
    (st : MatchState) :
    (patchLoop profs dfs st).data.PatchCoverCount =
      st.data.PatchCoverCount + (profs.map (profileCreditCov dfs)).sum := by
  unfold patchLoop
  refine foldlProjAdd profs (processProfile dfs) (fun st => st.data.PatchCoverCount)
    (profileCreditCov dfs) (fun st' p _ => ?_) st
  unfold processProfile profileCreditCov
  exact foldlProjAdd dfs (fun st f => processFilePair p f st)
    (fun st => st.data.PatchCoverCount) (pairCreditCov p)
    (fun st'' f _ => patchCoverCount_processFilePair p f st'') st'

theorem patchLoop_preserve (P : MatchState → Prop) (pre : ProfileBlock → Prop)
    (profs : List Profile) (dfs : List File)
    (hblocks : ∀ p ∈ profs, ∀ b ∈ p.Blocks, pre b)
    (hstep : ∀ fn frags st b, pre b → P st → P (processBlock fn frags st b)) :
    ∀ st, P st → P (patchLoop profs dfs st) := by
  intro st hst
  unfold patchLoop
  refine foldlPreserveMem profs (processProfile dfs) P (fun st' p hp hst' => ?_) st hst
  unfold processProfile
  refine foldlPreserveMem dfs (fun st f => processFilePair p f st) P
    (fun st'' f _ hst'' => ?_) st' hst'
  show P (processFilePair p f st'')
  unfold processFilePair
  split
  · exact foldlPreserveMem p.Blocks (processBlock p.FileName f.TextFragments) P
      (fun st3 b hb hst3 => hstep _ _ st3 b (hblocks p hp b hb) hst3) st'' hst''
  · exact hst''

/-- Candidate-uncovered entries carry the execution count of an unexecuted
block, covered entries that of an executed one. -/
def SignInv (st : MatchState) : Prop :=
  (∀ e ∈ st.partiallyCoveredLines, ∀ l ∈ e.2, l.CoverCount ≤ 0) ∧
  (∀ e ∈ st.coveredLines, ∀ l ∈ e.2, 0 < l.CoverCount)

theorem signInv_processBlock (fn : String) (frags : List TextFragment)
    (st : MatchState) (b : ProfileBlock) (h : SignInv st) :
    SignInv (processBlock fn frags st b) := by
  obtain ⟨h1, h2⟩ := h
  unfold processBlock
  cases hf : findAddInFragments b frags with
  | none => exact ⟨h1, h2⟩
  | some r =>
    obtain ⟨ln, ls⟩ := r
    by_cases hb : b.Count > 0
    · simp only [if_pos hb]
      exact ⟨h1, entries_appendLine _ _ _ h2 hb⟩
    · simp only [if_neg hb]
      have hb' : b.Count ≤ 0 := by omega
      exact ⟨entries_appendLine _ _ _ h1 hb', h2⟩

/-- The running patch denominator always equals the covered credit plus the
total statement weight of the candidate-uncovered entries. -/
def AcctInv (st : MatchState) : Prop :=
  st.data.PatchNumStmt = st.data.PatchCoverCount + pcSum st.partiallyCoveredLines

theorem acctInv_processBlock (fn : String) (frags : List TextFragment)
    (st : MatchState) (b : ProfileBlock) (h : AcctInv st) :
    AcctInv (processBlock fn frags st b) := by
  unfold AcctInv at h ⊢
  unfold processBlock
  cases hf : findAddInFragments b frags with
  | none => exact h
  | some r =>
    obtain ⟨ln, ls⟩ := r
    by_cases hb : b.Count > 0
    · simp only [if_pos hb]
      show st.data.PatchNumStmt + b.NumStmt =
        st.data.PatchCoverCount + b.NumStmt + pcSum st.partiallyCoveredLines
      omega
    · simp only [if_neg hb]
      show st.data.PatchNumStmt + b.NumStmt = st.data.PatchCoverCount +
        pcSum (appendLine st.partiallyCoveredLines fn
          { LineNum := ln, NumStmt := b.NumStmt, CoverCount := b.Count, LineString := ls })
      rw [pcSum_appendLine]
      show st.data.PatchNumStmt + b.NumStmt = st.data.PatchCoverCount +
        (pcSum st.partiallyCoveredLines + b.NumStmt)
      omega

/-- Every candidate-uncovered entry carries a non-negative statement
weight (true whenever the profile blocks do). -/
def EntryNonneg (st : MatchState) : Prop :=
  ∀ e ∈ st.partiallyCoveredLines, ∀ l ∈ e.2, 0 ≤ l.NumStmt

theorem entryNonneg_processBlock (fn : String) (frags : List TextFragment)
    (st : MatchState) (b : ProfileBlock) (hpre : 0 ≤ b.NumStmt) (h : EntryNonneg st) :
    EntryNonneg (processBlock fn frags st b) := by
  unfold processBlock
  cases hf : findAddInFragments b frags with
  | none => exact h
  | some r =>
    obtain ⟨ln, ls⟩ := r
    by_cases hb : b.Count > 0
    · simp only [if_pos hb]
      exact h
    · simp only [if_neg hb]
      exact entries_appendLine _ _ _ h hpre

/-- The candidate-uncovered map never repeats a key. -/
def PartialKeysNodup (st : MatchState) : Prop :=
  (mapKeys st.partiallyCoveredLines).Nodup

theorem partialKeysNodup_processBlock (fn : String) (frags : List TextFragment)
    (st : MatchState) (b : ProfileBlock) (h : PartialKeysNodup st) :
    PartialKeysNodup (processBlock fn frags st b) := by
  unfold processBlock
  cases hf : findAddInFragments b frags with
  | none => exact h
  | some r =>
    obtain ⟨ln, ls⟩ := r
    by_cases hb : b.Count > 0
    · simp only [if_pos hb]
      exact h
    · simp only [if_neg hb]
      exact nodup_mapKeys_appendLine _ _ _ h

theorem step2_signInv (dfs : List File) (profs : List Profile) :
    SignInv (step2 dfs profs) := by
  unfold step2
  refine patchLoop_preserve SignInv (fun _ => True) profs dfs (fun _ _ _ _ => trivial)
    (fun fn frags st b _ h => signInv_processBlock fn frags st b h) _ ?_
  exact ⟨fun e he => by simp [initialMatchState] at he,
    fun e he => by simp [initialMatchState] at he⟩

theorem step2_acctInv (dfs : List File) (profs : List Profile) :
    AcctInv (step2 dfs profs) := by
  unfold step2
  refine patchLoop_preserve AcctInv (fun _ => True) profs dfs (fun _ _ _ _ => trivial)
    (fun fn frags st b _ h => acctInv_processBlock fn frags st b h) _ ?_
  rfl

theorem step2_partialKeysNodup (dfs : List File) (profs : List Profile) :
    PartialKeysNodup (step2 dfs profs) := by
  unfold step2
  refine patchLoop_preserve PartialKeysNodup (fun _ => True) profs dfs
    (fun _ _ _ _ => trivial)
    (fun fn frags st b _ h => partialKeysNodup_processBlock fn frags st b h) _ ?_
  exact List.nodup_nil

/-- All statement counts of a profile list are non-negative, as the
coverage-profile parser guarantees (its numeric fields are digit runs). -/
def NonnegStmts (ps : List Profile) : Prop :=
  ∀ p ∈ ps, ∀ b ∈ p.Blocks, 0 ≤ b.NumStmt

theorem step2_entryNonneg (dfs : List File) (profs : List Profile)
    (h : NonnegStmts profs) : EntryNonneg (step2 dfs profs) := by
  unfold step2
  refine patchLoop_preserve EntryNonneg (fun b => 0 ≤ b.NumStmt) profs dfs h
    (fun fn frags st b hb hst => entryNonneg_processBlock fn frags st b hb hst) _ ?_
  exact fun e he => by simp [initialMatchState] at he

/-- The `uncovered` test of cover.go line 213 for one candidate line. -/
def lineUncov (ok : Bool) (cov : List Line) (l : Line) : Bool :=
  !ok || !isLineCovered l cov

/-- What step 4 subtracts from `PatchNumStmt` for one file: the statement
weights of its invalid candidate lines. -/
def subNumF (lines : List Line) : Int :=
  ((lines.filter fun l => isInvalidLine l.LineString).map Line.NumStmt).sum

/-- What step 4 subtracts from `PatchCoverCount` for one file: the statement
weights of its invalid candidate lines that pass the covered triple-match. -/
def subCovF (ok : Bool) (cov : List Line) (lines : List Line) : Int :=
  ((lines.filter fun l => isInvalidLine l.LineString && !lineUncov ok cov l).map
    Line.NumStmt).sum

theorem processLine_patchNumStmt (ok : Bool) (cov : List Line)
    (acc : CoverageData × List Line) (line : Line) :
    (processLine ok cov acc line).1.PatchNumStmt =
      acc.1.PatchNumStmt - (if isInvalidLine line.LineString then line.NumStmt else 0) := by
  unfold processLine
  by_cases hi : isInvalidLine line.LineString = true <;>
    by_cases hu : (!ok || !isLineCovered line cov) = true <;>
      simp [hi, hu]

theorem processLine_patchCoverCount (ok : Bool) (cov : List Line)
    (acc : CoverageData × List Line) (line : Line) :
    (processLine ok cov acc line).1.PatchCoverCount =
      acc.1.PatchCoverCount -
        (if isInvalidLine line.LineString && !lineUncov ok cov line then line.NumStmt
          else 0) := by
  unfold processLine lineUncov
  by_cases hi : isInvalidLine line.LineString = true <;>
    by_cases hu : (!ok || !isLineCovered line cov) = true <;>
      simp [hi, hu]

/-- The report fields that step 4 of the engine never writes. -/
def dataRest (d : CoverageData) : Int × Int × Rat × Rat × Bool × Int × Int × Rat :=
  (d.NumStmt, d.CoverCount, d.Coverage, d.PatchCoverage, d.HasPrevCoverage,
    d.PrevNumStmt, d.PrevCoverCount, d.PrevCoverage)

theorem processLine_dataRest (ok : Bool) (cov : List Line)
    (acc : CoverageData × List Line) (line : Line) :
    dataRest (processLine ok cov acc line).1 = dataRest acc.1 := by
  unfold processLine
  by_cases hi : isInvalidLine line.LineString = true <;>
    by_cases hu : (!ok || !isLineCovered line cov) = true <;>
      simp [hi, hu, dataRest]

theorem printFileStep_patchNumStmt (pm cm : List (String × List Line))
    (acc : CoverageData × String) (fn : String) :
    (printFileStep pm cm acc fn).1.PatchNumStmt =
      acc.1.PatchNumStmt - subNumF (lookupLines pm fn) := by
  unfold printFileStep
  have h := foldlProjSub (lookupLines pm fn)
    (processLine (containsKey cm fn) (lookupLines cm fn))
    (fun a => a.1.PatchNumStmt)
    (fun l => if isInvalidLine l.LineString then l.NumStmt else 0)
    (fun a l _ => processLine_patchNumStmt (containsKey cm fn) (lookupLines cm fn) a l)
    (acc.1, [])
  simp only [h]
  rw [sumMapIte]
  rfl

theorem printFileStep_patchCoverCount (pm cm : List (String × List Line))
    (acc : CoverageData × String) (fn : String) :
    (printFileStep pm cm acc fn).1.PatchCoverCount =
      acc.1.PatchCoverCount -
        subCovF (containsKey cm fn) (lookupLines cm fn) (lookupLines pm fn) := by
  unfold printFileStep
  have h := foldlProjSub (lookupLines pm fn)
    (processLine (containsKey cm fn) (lookupLines cm fn))
    (fun a => a.1.PatchCoverCount)
    (fun l => if isInvalidLine l.LineString &&
        !lineUncov (containsKey cm fn) (lookupLines cm fn) l then l.NumStmt else 0)
    (fun a l _ => processLine_patchCoverCount (containsKey cm fn) (lookupLines cm fn) a l)
    (acc.1, [])
  simp only [h]
  rw [sumMapIte]
  rfl

theorem printFileStep_dataRest (pm cm : List (String × List Line))
    (acc : CoverageData × String) (fn : String) :
    dataRest (printFileStep pm cm acc fn).1 = dataRest acc.1 := by
  unfold printFileStep
  exact foldlProjConst (lookupLines pm fn)
    (processLine (containsKey cm fn) (lookupLines cm fn)) (fun a => dataRest a.1)
    (fun a l _ => processLine_dataRest (containsKey cm fn) (lookupLines cm fn) a l)
    (acc.1, [])

theorem print_patchNumStmt (o : List String) (pm cm : List (String × List Line))
    (d : CoverageData) :
    (printUncoveredLines o pm cm d).PatchNumStmt =
      d.PatchNumStmt - (o.map fun fn => subNumF (lookupLines pm fn)).sum := by
  unfold printUncoveredLines
  exact foldlProjSub o (printFileStep pm cm) (fun a => a.1.PatchNumStmt)
    (fun fn => subNumF (lookupLines pm fn))
    (fun a fn _ => printFileStep_patchNumStmt pm cm a fn) (d, "")

theorem print_patchCoverCount (o : List String) (pm cm : List (String × List Line))
    (d : CoverageData) :
    (printUncoveredLines o pm cm d).PatchCoverCount =
      d.PatchCoverCount -
        (o.map fun fn =>
          subCovF (containsKey cm fn) (lookupLines cm fn) (lookupLines pm fn)).sum := by
  unfold printUncoveredLines
  exact foldlProjSub o (printFileStep pm cm) (fun a => a.1.PatchCoverCount)
    (fun fn => subCovF (containsKey cm fn) (lookupLines cm fn) (lookupLines pm fn))
    (fun a fn _ => printFileStep_patchCoverCount pm cm a fn) (d, "")

theorem print_dataRest (o : List String) (pm cm : List (String × List Line))
    (d : CoverageData) :
    dataRest (printUncoveredLines o pm cm d) = dataRest d := by
  unfold printUncoveredLines
  exact foldlProjConst o (printFileStep pm cm) (fun a => dataRest a.1)
    (fun a fn _ => printFileStep_dataRest pm cm a fn) (d, "")

theorem isLineCovered_eq_false (l : Line) (cov : List Line) (hl : l.CoverCount ≤ 0)
    (hcov : ∀ c ∈ cov, 0 < c.CoverCount) : isLineCovered l cov = false := by
  unfold isLineCovered
  rw [List.any_eq_false]
  intro c hc
  have hcc := hcov c hc
  simp only [Bool.and_eq_true, decide_eq_true_eq, not_and]
  intro _ h3
  omega

theorem subCovF_zero (ok : Bool) (cov lines : List Line)
    (hl : ∀ l ∈ lines, l.CoverCount ≤ 0) (hcov : ∀ c ∈ cov, 0 < c.CoverCount) :
    subCovF ok cov lines = 0 := by
  unfold subCovF
  have hnil : lines.filter (fun l => isInvalidLine l.LineString && !lineUncov ok cov l)
      = [] := by
    rw [List.filter_eq_nil_iff]
    intro l hlmem
    have h1 := isLineCovered_eq_false l cov (hl l hlmem) hcov
    simp [lineUncov, h1]
  rw [hnil]
  rfl

theorem subNumF_le_lineSum (lines : List Line) (h : ∀ l ∈ lines, 0 ≤ l.NumStmt) :
    subNumF lines ≤ lineSum lines :=
  sumMapFilterLe _ _ _ h

/-- Total statement weight of one profile (what the total loop adds to
`NumStmt`). -/
def blockStmtSum (p : Profile) : Int :=
  (p.Blocks.map ProfileBlock.NumStmt).sum

/-- Covered statement weight of one profile (what the total loop adds to
`CoverCount`). -/
def blockCovSum (p : Profile) : Int :=
  ((p.Blocks.filter fun b => decide (b.Count > 0)).map ProfileBlock.NumStmt).sum

theorem sumMapIteP {α : Type} (q : α → Prop) [DecidablePred q] (v : α → Int) (l : List α) :
    (l.map fun a => if q a then v a else 0).sum =
      ((l.filter fun a => decide (q a)).map v).sum := by
  induction l with
  | nil => rfl
  | cons a as ih =>
    by_cases h : q a
    · simp [List.filter_cons, h, ih]
    · simp [List.filter_cons, h, ih]

theorem totalBlockStep_numStmt (d : CoverageData) (b : ProfileBlock) :
    (totalBlockStep d b).NumStmt = d.NumStmt + b.NumStmt := by
  unfold totalBlockStep
  split <;> rfl

theorem totalBlockStep_coverCount (d : CoverageData) (b : ProfileBlock) :
    (totalBlockStep d b).CoverCount =
      d.CoverCount + (if b.Count > 0 then b.NumStmt else 0) := by
  unfold totalBlockStep
  split
  · rfl
  · simp

/-- The report fields the total-coverage loop never writes. -/
def totalRest (d : CoverageData) : Rat × Int × Int × Rat × Bool × Int × Int × Rat × String :=
  (d.Coverage, d.PatchNumStmt, d.PatchCoverCount, d.PatchCoverage, d.HasPrevCoverage,
    d.PrevNumStmt, d.PrevCoverCount, d.PrevCoverage, d.Uncovered_lines)

theorem totalBlockStep_totalRest (d : CoverageData) (b : ProfileBlock) :
    totalRest (totalBlockStep d b) = totalRest d := by
  unfold totalBlockStep
  split <;> rfl

theorem totalLoop_numStmt (ps : List Profile) (d : CoverageData) :
    (totalLoop ps d).NumStmt = d.NumStmt + (ps.map blockStmtSum).sum := by
  unfold totalLoop
  refine foldlProjAdd ps (fun d p => p.Blocks.foldl totalBlockStep d)
    (fun d => d.NumStmt) blockStmtSum (fun d' p _ => ?_) d
  exact foldlProjAdd p.Blocks totalBlockStep (fun d => d.NumStmt) ProfileBlock.NumStmt
    (fun d'' b _ => totalBlockStep_numStmt d'' b) d'

theorem totalLoop_coverCount (ps : List Profile) (d : CoverageData) :
    (totalLoop ps d).CoverCount = d.CoverCount + (ps.map blockCovSum).sum := by
  unfold totalLoop
  refine foldlProjAdd ps (fun d p => p.Blocks.foldl totalBlockStep d)
    (fun d => d.CoverCount) blockCovSum (fun d' p _ => ?_) d
  show (List.foldl totalBlockStep d' p.Blocks).CoverCount = d'.CoverCount + blockCovSum p
  have h := foldlProjAdd p.Blocks totalBlockStep (fun d => d.CoverCount)
    (fun b => if b.Count > 0 then b.NumStmt else 0)
    (fun d'' b _ => totalBlockStep_coverCount d'' b) d'
  rw [h, sumMapIteP (fun b => b.Count > 0) ProfileBlock.NumStmt p.Blocks]
  rfl

theorem totalLoop_totalRest (ps : List Profile) (d : CoverageData) :
    totalRest (totalLoop ps d) = totalRest d := by
  unfold totalLoop
  refine foldlProjConst ps (fun d p => p.Blocks.foldl totalBlockStep d) totalRest
    (fun d' p _ => ?_) d
  exact foldlProjConst p.Blocks totalBlockStep totalRest
    (fun d'' b _ => totalBlockStep_totalRest d'' b) d'

theorem prevBlockStep_prevNumStmt (d : CoverageData) (b : ProfileBlock) :
    (prevBlockStep d b).PrevNumStmt = d.PrevNumStmt + b.NumStmt := by
  unfold prevBlockStep
  split <;> rfl

theorem prevBlockStep_prevCoverCount (d : CoverageData) (b : ProfileBlock) :
    (prevBlockStep d b).PrevCoverCount =
      d.PrevCoverCount + (if b.Count > 0 then b.NumStmt else 0) := by
  unfold prevBlockStep
  split
  · rfl
  · simp

/-- The report fields the previous-total loop never writes. -/
def prevRest (d : CoverageData) : Int × Int × Rat × Int × Int × Rat × Bool × Rat × String :=
  (d.NumStmt, d.CoverCount, d.Coverage, d.PatchNumStmt, d.PatchCoverCount,
    d.PatchCoverage, d.HasPrevCoverage, d.PrevCoverage, d.Uncovered_lines)

theorem prevBlockStep_prevRest (d : CoverageData) (b : ProfileBlock) :
    prevRest (prevBlockStep d b) = prevRest d := by
  unfold prevBlockStep
  split <;> rfl

theorem prevLoop_prevNumStmt (ps : List Profile) (d : CoverageData) :
    (prevLoop ps d).PrevNumStmt = d.PrevNumStmt + (ps.map blockStmtSum).sum := by
  unfold prevLoop
  refine foldlProjAdd ps (fun d p => p.Blocks.foldl prevBlockStep d)
    (fun d => d.PrevNumStmt) blockStmtSum (fun d' p _ => ?_) d
  exact foldlProjAdd p.Blocks prevBlockStep (fun d => d.PrevNumStmt) ProfileBlock.NumStmt
    (fun d'' b _ => prevBlockStep_prevNumStmt d'' b) d'

theorem prevLoop_prevCoverCount (ps : List Profile) (d : CoverageData) :
    (prevLoop ps d).PrevCoverCount = d.PrevCoverCount + (ps.map blockCovSum).sum := by
  unfold prevLoop
  refine foldlProjAdd ps (fun d p => p.Blocks.foldl prevBlockStep d)
    (fun d => d.PrevCoverCount) blockCovSum (fun d' p _ => ?_) d
  show (List.foldl prevBlockStep d' p.Blocks).PrevCoverCount =
    d'.PrevCoverCount + blockCovSum p
  have h := foldlProjAdd p.Blocks prevBlockStep (fun d => d.PrevCoverCount)
    (fun b => if b.Count > 0 then b.NumStmt else 0)
    (fun d'' b _ => prevBlockStep_prevCoverCount d'' b) d'
  rw [h, sumMapIteP (fun b => b.Count > 0) ProfileBlock.NumStmt p.Blocks]
  rfl

theorem prevLoop_prevRest (ps : List Profile) (d : CoverageData) :
    prevRest (prevLoop ps d) = prevRest d := by
  unfold prevLoop
  refine foldlProjConst ps (fun d p => p.Blocks.foldl prevBlockStep d) prevRest
    (fun d' p _ => ?_) d
  exact foldlProjConst p.Blocks prevBlockStep prevRest
    (fun d'' b _ => prevBlockStep_prevRest d'' b) d'

theorem blockCovSum_le_blockStmtSum (p : Profile) (h : ∀ b ∈ p.Blocks, 0 ≤ b.NumStmt) :
    blockCovSum p ≤ blockStmtSum p :=
  sumMapFilterLe _ _ _ h

theorem percentSteps_spec (d : CoverageData) :
    percentSteps d = { d with
      Coverage := if d.NumStmt = 0 then d.Coverage
        else (d.CoverCount : Rat) / (d.NumStmt : Rat) * 100
      PatchCoverage := if d.PatchNumStmt = 0 then 100
        else (d.PatchCoverCount : Rat) / (d.PatchNumStmt : Rat) * 100
      PrevCoverage := if d.PrevNumStmt = 0 then d.PrevCoverage
        else (d.PrevCoverCount : Rat) / (d.PrevNumStmt : Rat) * 100 } := by
  unfold percentSteps
  by_cases h1 : d.NumStmt = 0 <;> by_cases h2 : d.PatchNumStmt = 0 <;>
    by_cases h3 : d.PrevNumStmt = 0 <;> simp [h1, h2, h3]

/-- Every field of the report except the rendered uncovered-lines text. -/
def reportCore (d : CoverageData) :
    Int × Int × Rat × Int × Int × Rat × Bool × Int × Int × Rat :=
  (d.NumStmt, d.CoverCount, d.Coverage, d.PatchNumStmt, d.PatchCoverCount,
    d.PatchCoverage, d.HasPrevCoverage, d.PrevNumStmt, d.PrevCoverCount, d.PrevCoverage)

theorem reportCore_percentSteps_congr (a b : CoverageData)
    (h : reportCore a = reportCore b) :
    reportCore (percentSteps a) = reportCore (percentSteps b) := by
  rw [percentSteps_spec, percentSteps_spec]
  simp only [reportCore, Prod.mk.injEq] at h ⊢
  obtain ⟨e1, e2, e3, e4, e5, e6, e7, e8, e9, e10⟩ := h
  simp [e1, e2, e3, e4, e5, e6, e7, e8, e9, e10]

theorem computeCoverage_result (dfs : List File) (ps qs : List Profile) (o : List String) :
    (computeCoverage dfs ps qs o).1 =
      percentSteps (printUncoveredLines o (step2 dfs ps).partiallyCoveredLines
        (step2 dfs ps).coveredLines
        (prevLoop qs (totalLoop ps (step2 dfs ps).data))) := rfl

theorem step2_stableFields (dfs : List File) (ps : List Profile) :
    stableFields (step2 dfs ps) = stableFields initialMatchState :=
  stableFields_patchLoop ps dfs initialMatchState

/-- C9: the correlation engine cannot fail: on every already-parsed input
(diff files, current profiles, optional previous profiles) and every map
iteration order, `computeCoverage` returns a report with a `nil` error; the
side-file write is modelled by its content only, so its failure cannot
affect the returned report. -/
theorem c9_no_error (dfs : List File) (ps qs : List Profile) (o : List String) :
    (computeCoverage dfs ps qs o).2 = none := rfl

/-- The transparent form of the hunk scan: enumerate all lines of the hunk
with their zero-based index `i`, attribute absolute number
`NewPosition + i` to each, and keep the Add lines whose number falls in the
block's range. -/
def attributedAdds (t : TextFragment) (b : ProfileBlock) : List (Int × String) :=
  t.Lines.enum.filterMap fun pr =>
    if pr.2.Op = LineOp.opAdd ∧ b.StartLine ≤ t.NewPosition + pr.1 ∧
        t.NewPosition + pr.1 ≤ b.EndLine then
      some (t.NewPosition + (pr.1 : Int), stripNewlines pr.2.Line)
    else none

theorem findAddLine_eq_head (ls : List DiffLine) (i : Nat) (pos : Int) (b : ProfileBlock) :
    findAddLine pos b i ls = ((ls.enumFrom i).filterMap fun pr =>
      if pr.2.Op = LineOp.opAdd ∧ b.StartLine ≤ pos + pr.1 ∧ pos + pr.1 ≤ b.EndLine then
        some (pos + (pr.1 : Int), stripNewlines pr.2.Line)
      else none).head? := by
  induction ls generalizing i with
  | nil => rfl
  | cons l rest ih =>
    by_cases hc : l.Op = LineOp.opAdd ∧ b.StartLine ≤ pos + i ∧ pos + i ≤ b.EndLine
    · simp [findAddLine, List.enumFrom, List.filterMap_cons, hc]
    · simp [findAddLine, List.enumFrom, List.filterMap_cons, hc, ih]

/-- C4: the absolute line number attributed to an Add line during block
matching is `NewPosition` plus the line's zero-based index among all lines
of the hunk (context, added and deleted alike): the scan of cover.go lines
109-117 returns the head of the list that enumerates every line with
`NewPosition + index`; and on a hunk whose Add line is preceded by a
deleted line the attributed number counts that deleted line (6 = 5 + 1),
not the Add-only index (which would give 5). -/
theorem c4_line_number_attribution :
    (∀ (t : TextFragment) (b : ProfileBlock),
      findAddLine t.NewPosition b 0 t.Lines = (attributedAdds t b).head?) ∧
    findAddLine 5 ⟨6, 1, 6, 10, 1, 1⟩ 0
        [⟨LineOp.opDelete, "d\n"⟩, ⟨LineOp.opAdd, "a\n"⟩] = some (6, "a") := by
  constructor
  · intro t b
    exact findAddLine_eq_head t.Lines 0 t.NewPosition b
  · decide

/-- C7: file matching is suffix-based: a non-suffix pair is skipped whole, a
suffix pair scans exactly the profile's blocks, a module-prefixed profile
name matches its bare diff name, and a profile with no suffix-matching diff
file leaves the state untouched. -/
theorem c7_suffix_matching :
    (∀ (p : Profile) (f : File) (st : MatchState),
      goHasSuf p.FileName f.NewName = false → processFilePair p f st = st) ∧
    (∀ (p : Profile) (f : File) (st : MatchState),
      goHasSuf p.FileName f.NewName = true →
        processFilePair p f st = p.Blocks.foldl (processBlock p.FileName f.TextFragments) st) ∧
    goHasSuf "github.com/org/repo/pkg/file.go" "pkg/file.go" = true ∧
    (∀ (p : Profile) (dfs : List File) (st : MatchState),
      (∀ f ∈ dfs, goHasSuf p.FileName f.NewName = false) →
        processProfile dfs st p = st) := by
  refine ⟨?_, ?_, by decide, ?_⟩
  · intro p f st h
    unfold processFilePair
    rw [if_neg (by simp [h])]
  · intro p f st h
    unfold processFilePair
    rw [if_pos h]
  · intro p dfs st h
    unfold processProfile
    exact foldlProjConst dfs (fun st f => processFilePair p f st) (fun st => st)
      (fun st' f hf => by
        show processFilePair p f st' = st'
        unfold processFilePair
        rw [if_neg (by simp [h f hf])]) st

/-- C7 witness: a concrete non-matching pair is skipped and the
module-prefixed example matches. -/
theorem c7_suffix_matching_witness :
    processFilePair ⟨"m/a.go", [⟨1, 1, 1, 10, 1, 1⟩]⟩ ⟨"b.go", []⟩ initialMatchState =
        initialMatchState ∧
      goHasSuf "github.com/org/repo/pkg/file.go" "pkg/file.go" = true :=
  ⟨c7_suffix_matching.1 _ _ _ (by decide), c7_suffix_matching.2.2.1⟩

/-- The classification of a line's text as the spec words it: after
trimming surrounding whitespace the line is empty, or starts a single-line
comment, or opens a block comment, or closes a block comment, or contains
the struct-tag marker. -/
def InvalidLineSpec (line : String) : Prop :=
  goTrimSpace line = "" ∨ (∃ r, goTrimSpace line = "//" ++ r) ∨
    (∃ r, goTrimSpace line = "/*" ++ r) ∨ (∃ r, goTrimSpace line = r ++ "*/") ∨
    ∃ a b, goTrimSpace line = a ++ "`json:" ++ b

/-- C8: `isInvalidLine` returns true exactly on the lines described by the
spec, and being a total boolean function it never fails. -/
theorem c8_isInvalidLine_spec (line : String) :
    isInvalidLine line = true ↔ InvalidLineSpec line := by
  unfold isInvalidLine InvalidLineSpec
  simp only [Bool.or_eq_true, goHasPre_iff, goHasSuf_iff, goContains_iff,
    decide_eq_true_eq]
  tauto

/-- C10: candidate-uncovered lines are recorded only from unexecuted blocks
and covered lines only from executed ones, so the triple-match of
`isLineCovered` never succeeds on a candidate, and step 4 never subtracts
from `PatchCoverCount`. -/
theorem c10_candidates_never_covered (dfs : List File) (ps : List Profile) :
    (∀ (k : String), ∀ l ∈ lookupLines (step2 dfs ps).partiallyCoveredLines k,
      isLineCovered l (lookupLines (step2 dfs ps).coveredLines k) = false) ∧
    (∀ (o : List String) (d : CoverageData),
      (printUncoveredLines o (step2 dfs ps).partiallyCoveredLines
        (step2 dfs ps).coveredLines d).PatchCoverCount = d.PatchCoverCount) := by
  obtain ⟨hpart, hcov⟩ := step2_signInv dfs ps
  have hmain : ∀ (k : String), ∀ l ∈ lookupLines (step2 dfs ps).partiallyCoveredLines k,
      isLineCovered l (lookupLines (step2 dfs ps).coveredLines k) = false := by
    intro k l hl
    exact isLineCovered_eq_false l _ (entries_lookup _ hpart k l hl)
      (fun c hc => entries_lookup _ hcov k c hc)
  refine ⟨hmain, ?_⟩
  intro o d
  rw [print_patchCoverCount]
  have hz : (o.map fun fn => subCovF (containsKey (step2 dfs ps).coveredLines fn)
      (lookupLines (step2 dfs ps).coveredLines fn)
      (lookupLines (step2 dfs ps).partiallyCoveredLines fn)).sum = 0 := by
    apply List.sum_eq_zero
    intro x hx
    simp only [List.mem_map] at hx
    obtain ⟨fn, hfn, rfl⟩ := hx
    exact subCovF_zero _ _ _ (fun l hl => entries_lookup _ hpart fn l hl)
      (fun c hc => entries_lookup _ hcov fn c hc)
  rw [hz]
  omega

/-- C10 witness: a concrete candidate line from a count-0 block is not
triple-matched, and step 4 leaves `PatchCoverCount` unchanged on that
input. -/
theorem c10_candidates_never_covered_witness :
    isLineCovered ⟨1, 1, 0, "x := 1"⟩
        (lookupLines (step2 [⟨"a.go", [⟨1, [⟨LineOp.opAdd, "x := 1\n"⟩]⟩]⟩]
          [⟨"m/a.go", [⟨1, 1, 1, 10, 1, 0⟩]⟩]).coveredLines "m/a.go") = false ∧
    (printUncoveredLines ["m/a.go"]
        (step2 [⟨"a.go", [⟨1, [⟨LineOp.opAdd, "x := 1\n"⟩]⟩]⟩]
          [⟨"m/a.go", [⟨1, 1, 1, 10, 1, 0⟩]⟩]).partiallyCoveredLines
        (step2 [⟨"a.go", [⟨1, [⟨LineOp.opAdd, "x := 1\n"⟩]⟩]⟩]
          [⟨"m/a.go", [⟨1, 1, 1, 10, 1, 0⟩]⟩]).coveredLines
        {}).PatchCoverCount = ({} : CoverageData).PatchCoverCount :=
  ⟨(c10_candidates_never_covered _ _).1 "m/a.go" ⟨1, 1, 0, "x := 1"⟩ (by decide),
    (c10_candidates_never_covered _ _).2 ["m/a.go"] {}⟩

/-- C5 (amended): within each suffix-matched (profile, diff file) pair a
block is credited at most once — after the first Add line in range the scan
stops — so the patch totals are exactly the per-pair block credits, each
block contributing `NumStmt` at most once per pair (and to
`PatchCoverCount` only when `Count > 0`); a block may however be credited
once per distinct suffix-matching diff file. -/
theorem c5_block_credited_once_per_pair (ps : List Profile) (dfs : List File)
    (st : MatchState) :
    (patchLoop ps dfs st).data.PatchNumStmt =
      st.data.PatchNumStmt + (ps.map (profileCredit dfs)).sum ∧
    (patchLoop ps dfs st).data.PatchCoverCount =
      st.data.PatchCoverCount + (ps.map (profileCreditCov dfs)).sum :=
  ⟨patchNumStmt_patchLoop ps dfs st, patchCoverCount_patchLoop ps dfs st⟩

def c5DiffA : File := ⟨"a.go", [⟨1, [⟨LineOp.opAdd, "x\n"⟩]⟩]⟩

def c5DiffB : File := ⟨"pkg/a.go", [⟨1, [⟨LineOp.opAdd, "x\n"⟩]⟩]⟩

def c5Prof : Profile := ⟨"m/pkg/a.go", [⟨1, 1, 1, 10, 1, 1⟩]⟩

/-- C5 counterexample: the profile `m/pkg/a.go` suffix-matches both diff
files `a.go` and `pkg/a.go`, so its single one-statement block is credited
twice: the run (with the only admissible iteration order, the empty one)
ends with `PatchNumStmt = 2` although the whole profile carries only one
statement. -/
theorem c5_counterexample :
    (c5Prof.Blocks.map ProfileBlock.NumStmt).sum = 1 ∧
    (computeCoverage [c5DiffA, c5DiffB] [c5Prof] [] []).1.PatchNumStmt = 2 ∧
    (computeCoverage [c5DiffA, c5DiffB] [c5Prof] [] []).1.PatchCoverCount = 2 ∧
    admissibleOrder [c5DiffA, c5DiffB] [c5Prof] [] := by
  refine ⟨by decide, by decide, by decide, ?_⟩
  unfold admissibleOrder
  decide

theorem print_phase_percent_fields (dfs : List File) (ps qs : List Profile)
    (o : List String) :
    (printUncoveredLines o (step2 dfs ps).partiallyCoveredLines
        (step2 dfs ps).coveredLines
        (prevLoop qs (totalLoop ps (step2 dfs ps).data))).Coverage = 0 ∧
    (printUncoveredLines o (step2 dfs ps).partiallyCoveredLines
        (step2 dfs ps).coveredLines
        (prevLoop qs (totalLoop ps (step2 dfs ps).data))).PrevCoverage = 0 := by
  have hpr := print_dataRest o (step2 dfs ps).partiallyCoveredLines
    (step2 dfs ps).coveredLines (prevLoop qs (totalLoop ps (step2 dfs ps).data))
  have hpv := prevLoop_prevRest qs (totalLoop ps (step2 dfs ps).data)
  have htt := totalLoop_totalRest ps (step2 dfs ps).data
  have hsf := step2_stableFields dfs ps
  simp only [dataRest, Prod.mk.injEq] at hpr
  simp only [prevRest, Prod.mk.injEq] at hpv
  simp only [totalRest, Prod.mk.injEq] at htt
  simp only [stableFields, initialMatchState, Prod.mk.injEq] at hsf
  obtain ⟨-, -, hprCov, -, -, -, -, hprPrevCov⟩ := hpr
  obtain ⟨-, -, hpvCov, -, -, -, -, hpvPrevCov, -⟩ := hpv
  obtain ⟨httCov, -, -, -, -, -, -, httPrevCov, -⟩ := htt
  obtain ⟨-, -, hsfCov, -, -, -, -, hsfPrevCov, -⟩ := hsf
  constructor
  · rw [hprCov, hpvCov, httCov, hsfCov]
  · rw [hprPrevCov, hpvPrevCov, httPrevCov, hsfPrevCov]

/-- C3: every percentage field of the returned report equals
`100 * coverCount / numStmt` over its own pair of counters, left at `0`
when the denominator is `0` — except `PatchCoverage`, which is `100`
whenever the post-correction `PatchNumStmt` is `0` — and the error result
is always `nil`: no division by zero and no failure is possible. -/
theorem c3_percentages (dfs : List File) (ps qs : List Profile) (o : List String) :
    ((computeCoverage dfs ps qs o).1.Coverage =
      if (computeCoverage dfs ps qs o).1.NumStmt = 0 then 0
      else 100 * ((computeCoverage dfs ps qs o).1.CoverCount : Rat) /
        ((computeCoverage dfs ps qs o).1.NumStmt : Rat)) ∧
    ((computeCoverage dfs ps qs o).1.PatchCoverage =
      if (computeCoverage dfs ps qs o).1.PatchNumStmt = 0 then 100
      else 100 * ((computeCoverage dfs ps qs o).1.PatchCoverCount : Rat) /
        ((computeCoverage dfs ps qs o).1.PatchNumStmt : Rat)) ∧
    ((computeCoverage dfs ps qs o).1.PrevCoverage =
      if (computeCoverage dfs ps qs o).1.PrevNumStmt = 0 then 0
      else 100 * ((computeCoverage dfs ps qs o).1.PrevCoverCount : Rat) /
        ((computeCoverage dfs ps qs o).1.PrevNumStmt : Rat)) ∧
    (computeCoverage dfs ps qs o).2 = none := by
  obtain ⟨hcov0, hprev0⟩ := print_phase_percent_fields dfs ps qs o
  rw [computeCoverage_result, percentSteps_spec]
  refine ⟨?_, ?_, ?_, rfl⟩
  · by_cases h : (printUncoveredLines o (step2 dfs ps).partiallyCoveredLines
        (step2 dfs ps).coveredLines
        (prevLoop qs (totalLoop ps (step2 dfs ps).data))).NumStmt = 0
    · simp [h, hcov0]
    · simp [h]
      ring
  · by_cases h : (printUncoveredLines o (step2 dfs ps).partiallyCoveredLines
        (step2 dfs ps).coveredLines
        (prevLoop qs (totalLoop ps (step2 dfs ps).data))).PatchNumStmt = 0
    · simp [h]
    · simp [h]
      ring
  · by_cases h : (printUncoveredLines o (step2 dfs ps).partiallyCoveredLines
        (step2 dfs ps).coveredLines
        (prevLoop qs (totalLoop ps (step2 dfs ps).data))).PrevNumStmt = 0
    · simp [h, hprev0]
    · simp [h]
      ring

theorem percentSteps_intFields (d : CoverageData) :
    (percentSteps d).NumStmt = d.NumStmt ∧ (percentSteps d).CoverCount = d.CoverCount ∧
    (percentSteps d).PatchNumStmt = d.PatchNumStmt ∧
    (percentSteps d).PatchCoverCount = d.PatchCoverCount ∧
    (percentSteps d).PrevNumStmt = d.PrevNumStmt ∧
    (percentSteps d).PrevCoverCount = d.PrevCoverCount := by
  rw [percentSteps_spec]
  exact ⟨rfl, rfl, rfl, rfl, rfl, rfl⟩

/-- C2: on every input whose profiles carry non-negative statement counts
(as the profile parser guarantees) and every admissible map iteration
order, the returned report satisfies `CoverCount ≤ NumStmt`,
`PatchCoverCount ≤ PatchNumStmt` (also after step 4's invalid-line
subtractions) and `PrevCoverCount ≤ PrevNumStmt`. -/
theorem c2_cover_bounds (dfs : List File) (ps qs : List Profile) (o : List String)
    (h1 : NonnegStmts ps) (h2 : NonnegStmts qs) (h3 : admissibleOrder dfs ps o) :
    (computeCoverage dfs ps qs o).1.CoverCount ≤ (computeCoverage dfs ps qs o).1.NumStmt ∧
    (computeCoverage dfs ps qs o).1.PatchCoverCount ≤
      (computeCoverage dfs ps qs o).1.PatchNumStmt ∧
    (computeCoverage dfs ps qs o).1.PrevCoverCount ≤
      (computeCoverage dfs ps qs o).1.PrevNumStmt := by
  rw [computeCoverage_result]
  obtain ⟨hN, hC, hPN, hPC, hVN, hVC⟩ := percentSteps_intFields
    (printUncoveredLines o (step2 dfs ps).partiallyCoveredLines
      (step2 dfs ps).coveredLines (prevLoop qs (totalLoop ps (step2 dfs ps).data)))
  rw [hN, hC, hPN, hPC, hVN, hVC]
  have hpr := print_dataRest o (step2 dfs ps).partiallyCoveredLines
    (step2 dfs ps).coveredLines (prevLoop qs (totalLoop ps (step2 dfs ps).data))
  simp only [dataRest, Prod.mk.injEq] at hpr
  obtain ⟨hprN, hprC, -, -, -, hprVN, hprVC, -⟩ := hpr
  have hpv := prevLoop_prevRest qs (totalLoop ps (step2 dfs ps).data)
  simp only [prevRest, Prod.mk.injEq] at hpv
  obtain ⟨hpvN, hpvC, -, hpvPN, hpvPC, -, -, -, -⟩ := hpv
  have htt := totalLoop_totalRest ps (step2 dfs ps).data
  simp only [totalRest, Prod.mk.injEq] at htt
  obtain ⟨-, httPN, httPC, -, -, httVN, httVC, -, -⟩ := htt
  have hsf := step2_stableFields dfs ps
  simp only [stableFields, initialMatchState, Prod.mk.injEq] at hsf
  obtain ⟨hsfN, hsfC, -, -, -, hsfVN, hsfVC, -, -⟩ := hsf
  -- repo-wide totals
  have hNfinal : (printUncoveredLines o (step2 dfs ps).partiallyCoveredLines
      (step2 dfs ps).coveredLines
      (prevLoop qs (totalLoop ps (step2 dfs ps).data))).NumStmt =
      (ps.map blockStmtSum).sum := by
    rw [hprN, hpvN, totalLoop_numStmt, hsfN]
    omega
  have hCfinal : (printUncoveredLines o (step2 dfs ps).partiallyCoveredLines
      (step2 dfs ps).coveredLines
      (prevLoop qs (totalLoop ps (step2 dfs ps).data))).CoverCount =
      (ps.map blockCovSum).sum := by
    rw [hprC, hpvC, totalLoop_coverCount, hsfC]
    omega
  have hCleS : (ps.map blockCovSum).sum ≤ (ps.map blockStmtSum).sum :=
    List.sum_le_sum fun p hp => blockCovSum_le_blockStmtSum p (h1 p hp)
  -- previous totals
  have hVNfinal : (printUncoveredLines o (step2 dfs ps).partiallyCoveredLines
      (step2 dfs ps).coveredLines
      (prevLoop qs (totalLoop ps (step2 dfs ps).data))).PrevNumStmt =
      (qs.map blockStmtSum).sum := by
    rw [hprVN, prevLoop_prevNumStmt, httVN, hsfVN]
    omega
  have hVCfinal : (printUncoveredLines o (step2 dfs ps).partiallyCoveredLines
      (step2 dfs ps).coveredLines
      (prevLoop qs (totalLoop ps (step2 dfs ps).data))).PrevCoverCount =
      (qs.map blockCovSum).sum := by
    rw [hprVC, prevLoop_prevCoverCount, httVC, hsfVC]
    omega
  have hVleS : (qs.map blockCovSum).sum ≤ (qs.map blockStmtSum).sum :=
    List.sum_le_sum fun p hp => blockCovSum_le_blockStmtSum p (h2 p hp)
  -- patch totals
  obtain ⟨hpart, hcov⟩ := step2_signInv dfs ps
  have hacct := step2_acctInv dfs ps
  unfold AcctInv at hacct
  have hPCz : (o.map fun fn => subCovF (containsKey (step2 dfs ps).coveredLines fn)
      (lookupLines (step2 dfs ps).coveredLines fn)
      (lookupLines (step2 dfs ps).partiallyCoveredLines fn)).sum = 0 := by
    apply List.sum_eq_zero
    intro x hx
    simp only [List.mem_map] at hx
    obtain ⟨fn, hfn, rfl⟩ := hx
    exact subCovF_zero _ _ _ (fun l hl => entries_lookup _ hpart fn l hl)
      (fun c hc => entries_lookup _ hcov fn c hc)
  have hPCfinal : (printUncoveredLines o (step2 dfs ps).partiallyCoveredLines
      (step2 dfs ps).coveredLines
      (prevLoop qs (totalLoop ps (step2 dfs ps).data))).PatchCoverCount =
      (step2 dfs ps).data.PatchCoverCount := by
    rw [print_patchCoverCount, hPCz, hpvPC, httPC]
    omega
  -- the subtracted amount is bounded by the candidate weight
  have hsub : (o.map fun fn =>
      subNumF (lookupLines (step2 dfs ps).partiallyCoveredLines fn)).sum ≤
      pcSum (step2 dfs ps).partiallyCoveredLines := by
    have hperm : (o.map fun fn =>
        subNumF (lookupLines (step2 dfs ps).partiallyCoveredLines fn)).sum =
        ((mapKeys (step2 dfs ps).partiallyCoveredLines).map fun fn =>
          subNumF (lookupLines (step2 dfs ps).partiallyCoveredLines fn)).sum :=
      (h3.map _).sum_eq
    have hnodup := step2_partialKeysNodup dfs ps
    unfold PartialKeysNodup at hnodup
    have hkeys := mapKeys_map_lookup (step2 dfs ps).partiallyCoveredLines hnodup
    have hmm : ((mapKeys (step2 dfs ps).partiallyCoveredLines).map fun fn =>
        subNumF (lookupLines (step2 dfs ps).partiallyCoveredLines fn)) =
        (step2 dfs ps).partiallyCoveredLines.map fun e => subNumF e.2 := by
      have := congrArg (List.map subNumF) hkeys
      rw [List.map_map, List.map_map] at this
      exact this
    rw [hperm, hmm]
    have hnn := step2_entryNonneg dfs ps h1
    unfold EntryNonneg at hnn
    have hle : ((step2 dfs ps).partiallyCoveredLines.map fun e => subNumF e.2).sum ≤
        ((step2 dfs ps).partiallyCoveredLines.map fun e => lineSum e.2).sum :=
      List.sum_le_sum fun e he => subNumF_le_lineSum e.2 (fun l hl => hnn e he l hl)
    exact hle.trans_eq rfl
  have hPNfinal := print_patchNumStmt o (step2 dfs ps).partiallyCoveredLines
    (step2 dfs ps).coveredLines (prevLoop qs (totalLoop ps (step2 dfs ps).data))
  rw [hpvPN, httPN] at hPNfinal
  refine ⟨?_, ?_, ?_⟩
  · rw [hNfinal, hCfinal]
    exact hCleS
  · rw [hPCfinal, hPNfinal, hacct]
    omega
  · rw [hVNfinal, hVCfinal]
    exact hVleS

def c2Diff : File := ⟨"a.go", [⟨1, [⟨LineOp.opAdd, "x := 1\n"⟩, ⟨LineOp.opAdd, "y := 2\n"⟩]⟩]⟩

def c2Prof : Profile := ⟨"m/a.go", [⟨1, 1, 1, 10, 2, 0⟩, ⟨2, 1, 2, 10, 3, 5⟩]⟩

/-- C2 witness: the bounds at a concrete input with a covered and an
uncovered block, a previous profile, and the admissible iteration order. -/
theorem c2_cover_bounds_witness :
    (computeCoverage [c2Diff] [c2Prof] [c2Prof] ["m/a.go"]).1.CoverCount ≤
        (computeCoverage [c2Diff] [c2Prof] [c2Prof] ["m/a.go"]).1.NumStmt ∧
      (computeCoverage [c2Diff] [c2Prof] [c2Prof] ["m/a.go"]).1.PatchCoverCount ≤
        (computeCoverage [c2Diff] [c2Prof] [c2Prof] ["m/a.go"]).1.PatchNumStmt ∧
      (computeCoverage [c2Diff] [c2Prof] [c2Prof] ["m/a.go"]).1.PrevCoverCount ≤
        (computeCoverage [c2Diff] [c2Prof] [c2Prof] ["m/a.go"]).1.PrevNumStmt :=
  c2_cover_bounds [c2Diff] [c2Prof] [c2Prof] ["m/a.go"]
    (by unfold NonnegStmts; decide) (by unfold NonnegStmts; decide)
    (by unfold admissibleOrder; decide)

def c6DiffA : File := ⟨"a.go", [⟨1, [⟨LineOp.opAdd, "x := 1\n"⟩]⟩]⟩

def c6DiffB : File := ⟨"b.go", [⟨1, [⟨LineOp.opAdd, "y := 2\n"⟩]⟩]⟩

def c6ProfA : Profile := ⟨"m/a.go", [⟨1, 1, 1, 10, 1, 0⟩]⟩

def c6ProfB : Profile := ⟨"m/b.go", [⟨1, 1, 1, 10, 1, 0⟩]⟩

/-- C6 counterexample: on an input with uncovered lines in two files, two
runs that only differ in the (unspecified) Go map iteration order produce
different `CoverageReport`s — the per-file sections of the uncovered-lines
text come out in different orders — so the report is not bit-identical
across runs. -/
theorem c6_counterexample :
    admissibleOrder [c6DiffA, c6DiffB] [c6ProfA, c6ProfB] ["m/a.go", "m/b.go"] ∧
    admissibleOrder [c6DiffA, c6DiffB] [c6ProfA, c6ProfB] ["m/b.go", "m/a.go"] ∧
    (computeCoverage [c6DiffA, c6DiffB] [c6ProfA, c6ProfB] [] ["m/a.go", "m/b.go"]).1 ≠
      (computeCoverage [c6DiffA, c6DiffB] [c6ProfA, c6ProfB] [] ["m/b.go", "m/a.go"]).1 := by
  refine ⟨?_, ?_,
    fun h => absurd (congrArg CoverageData.Uncovered_lines h) (by decide)⟩
  · unfold admissibleOrder
    decide
  · unfold admissibleOrder
    decide

/-- C6 (amended): for any two iteration orders that are permutations of one
another — as all admissible Go map iteration orders of one input are —
correlation returns the same report in every field except the rendered
uncovered-lines text; in particular re-running with the same order is
bit-identical. -/
theorem c6_report_core_order_insensitive (dfs : List File) (ps qs : List Profile)
    (o1 o2 : List String) (hperm : o1.Perm o2) :
    reportCore (computeCoverage dfs ps qs o1).1 =
      reportCore (computeCoverage dfs ps qs o2).1 := by
  rw [computeCoverage_result, computeCoverage_result]
  apply reportCore_percentSteps_congr
  have hpr1 := print_dataRest o1 (step2 dfs ps).partiallyCoveredLines
    (step2 dfs ps).coveredLines (prevLoop qs (totalLoop ps (step2 dfs ps).data))
  have hpr2 := print_dataRest o2 (step2 dfs ps).partiallyCoveredLines
    (step2 dfs ps).coveredLines (prevLoop qs (totalLoop ps (step2 dfs ps).data))
  simp only [dataRest, Prod.mk.injEq] at hpr1 hpr2
  obtain ⟨ha1, hb1, hc1, hd1, he1, hf1, hg1, hh1⟩ := hpr1
  obtain ⟨ha2, hb2, hc2, hd2, he2, hf2, hg2, hh2⟩ := hpr2
  have hpn1 := print_patchNumStmt o1 (step2 dfs ps).partiallyCoveredLines
    (step2 dfs ps).coveredLines (prevLoop qs (totalLoop ps (step2 dfs ps).data))
  have hpn2 := print_patchNumStmt o2 (step2 dfs ps).partiallyCoveredLines
    (step2 dfs ps).coveredLines (prevLoop qs (totalLoop ps (step2 dfs ps).data))
  have hpc1 := print_patchCoverCount o1 (step2 dfs ps).partiallyCoveredLines
    (step2 dfs ps).coveredLines (prevLoop qs (totalLoop ps (step2 dfs ps).data))
  have hpc2 := print_patchCoverCount o2 (step2 dfs ps).partiallyCoveredLines
    (step2 dfs ps).coveredLines (prevLoop qs (totalLoop ps (step2 dfs ps).data))
  have hsum : (o1.map fun fn =>
      subNumF (lookupLines (step2 dfs ps).partiallyCoveredLines fn)).sum =
      (o2.map fun fn =>
        subNumF (lookupLines (step2 dfs ps).partiallyCoveredLines fn)).sum :=
    (hperm.map _).sum_eq
  have hsumc : (o1.map fun fn => subCovF (containsKey (step2 dfs ps).coveredLines fn)
      (lookupLines (step2 dfs ps).coveredLines fn)
      (lookupLines (step2 dfs ps).partiallyCoveredLines fn)).sum =
      (o2.map fun fn => subCovF (containsKey (step2 dfs ps).coveredLines fn)
        (lookupLines (step2 dfs ps).coveredLines fn)
        (lookupLines (step2 dfs ps).partiallyCoveredLines fn)).sum :=
    (hperm.map _).sum_eq
  simp only [reportCore, Prod.mk.injEq]
  refine ⟨?_, ?_, ?_, ?_, ?_, ?_, ?_, ?_, ?_, ?_⟩
  · rw [ha1, ha2]
  · rw [hb1, hb2]
  · rw [hc1, hc2]
  · rw [hpn1, hpn2, hsum]
  · rw [hpc1, hpc2, hsumc]
  · rw [hd1, hd2]
  · rw [he1, he2]
  · rw [hf1, hf2]
  · rw [hg1, hg2]
  · rw [hh1, hh2]

/-- C6 amended witness: the two admissible orders of the counterexample
input agree on every field but the rendered text. -/
theorem c6_report_core_order_insensitive_witness :
    reportCore (computeCoverage [c6DiffA, c6DiffB] [c6ProfA, c6ProfB] []
        ["m/a.go", "m/b.go"]).1 =
      reportCore (computeCoverage [c6DiffA, c6DiffB] [c6ProfA, c6ProfB] []
        ["m/b.go", "m/a.go"]).1 :=
  c6_report_core_order_insensitive [c6DiffA, c6DiffB] [c6ProfA, c6ProfB] []
    ["m/a.go", "m/b.go"] ["m/b.go", "m/a.go"] (by decide)

def c1Diff : File := ⟨"a.go", [⟨1, [⟨LineOp.opAdd, "\n"⟩]⟩]⟩

def c1Prof : Profile := ⟨"a.go", [⟨1, 1, 1, 10, 1, 1⟩]⟩

/-- C1 (evaluation at the failing input): the diff adds a single blank line
(classified invalid) at line 1, and the profile's only block spans that
line with `NumStmt = 1` and `Count = 1`; every matched Add line of the
block is invalid, yet the run ends with `PatchNumStmt = 1`, not `0` — the
invalid-covered correction promised by the code's own comment never runs
because `printUncoveredLines` only scans the candidate-uncovered map. -/
theorem c1_invalid_covered_block_still_counted :
    isInvalidLine (GoStrings.stripNewlines "\n") = true ∧
    admissibleOrder [c1Diff] [c1Prof] [] ∧
    (computeCoverage [c1Diff] [c1Prof] [] []).1.PatchNumStmt = 1 ∧
    (computeCoverage [c1Diff] [c1Prof] [] []).1.PatchCoverCount = 1 := by
  refine ⟨by decide, ?_, by decide, by decide⟩
  unfold admissibleOrder
  decide

end PatchCover
